import Mathlib

/-!
Verification of `species/util/dust_util.py` (dust cross sections and
extinction).  Floating point arithmetic is modelled by real numbers, numpy
arrays by `List ℝ`, and Python exceptions by `Option`/`none`.  External
collaborators (the PyMieScatt solver, scipy interpolators, the HDF5 grid
store and the filter reader) enter as explicit parameters or as small
models of their documented interfaces.
-/

/-- Model of `np.sum(xs * ys)`: the sum of the elementwise products of two
equal-length arrays. -/
def wsum (xs ys : List ℝ) : ℝ := (List.zipWith (fun a b => a * b) xs ys).sum

/-- Sample `k` of `np.logspace(a, b, n + 1)`, i.e. `10 ** (a + (b - a) * k / n)`
(the `n + 1` logarithmically spaced points from `10 ** a` to `10 ** b`). -/
noncomputable def logspace (a b : ℝ) (n k : ℕ) : ℝ :=
  (10 : ℝ) ^ (a + (b - a) * (k : ℝ) / (n : ℝ))

/-- The un-normalized log-normal number density `dn/dr` of
`log_normal_distribution` (Ackerman & Marley 2001, Eq. 9):
`exp(-log(r/radius_g)^2 / (2 log(sigma_g)^2)) / (r sqrt(2 pi) log(sigma_g))`. -/
noncomputable def lnDensity (radius_g sigma_g r : ℝ) : ℝ :=
  Real.exp (-(Real.log (r / radius_g)) ^ 2 / (2 * (Real.log sigma_g) ^ 2)) /
    (r * Real.sqrt (2 * Real.pi) * Real.log sigma_g)

/-- The coarse scan grid `r_test = np.logspace(-20., 20., 1000)` of
`log_normal_distribution`: 1000 points over 40 decades. -/
noncomputable def rTest (i : ℕ) : ℝ := (10 : ℝ) ^ ((-20 : ℝ) + 40 * (i : ℝ) / 999)

/-- The density sampled on the coarse scan grid. -/
noncomputable def scanDensity (rg sg : ℝ) (i : ℕ) : ℝ := lnDensity rg sg (rTest i)

/-- `np.amax(dn_dr)` over the 1000-point scan. -/
noncomputable def scanMax (rg sg : ℝ) : ℝ :=
  (Finset.range 1000).sup' (Finset.nonempty_range_iff.mpr (by norm_num))
    (scanDensity rg sg)

/-- `np.where(dn_dr/np.amax(dn_dr) > 0.001)[0]`: the scan indices whose
density exceeds 0.1% of the scan maximum. -/
def scanSelect (rg sg : ℝ) : Set ℕ :=
  {i : ℕ | i < 1000 ∧ 0.001 < scanDensity rg sg i / scanMax rg sg}

/-- `indices[0]` of `log_normal_distribution`. -/
noncomputable def selectFirst (rg sg : ℝ) : ℕ := sInf (scanSelect rg sg)

/-- `indices[-1]` of `log_normal_distribution`. -/
noncomputable def selectLast (rg sg : ℝ) : ℕ := sSup (scanSelect rg sg)

/-- `r_width = np.diff(r_bins)` for edges `np.logspace(a, b, n + 1)`. -/
noncomputable def binWidths (a b : ℝ) (n : ℕ) : List ℝ :=
  (List.range n).map (fun k => logspace a b n (k + 1) - logspace a b n k)

/-- `radii = (r_bins[1:] + r_bins[:-1]) / 2` for edges `np.logspace(a, b, n + 1)`:
the arithmetic midpoints of consecutive edges. -/
noncomputable def binRadii (a b : ℝ) (n : ℕ) : List ℝ :=
  (List.range n).map (fun k => (logspace a b n (k + 1) + logspace a b n k) / 2)

/-- The bins built by `log_normal_distribution` once the scan has selected a
radius sub-range: `n_bins + 1` edges from `np.logspace(np.log10(r_test[indices[0]]),
np.log10(r_test[indices[-1]]), n_bins + 1)`, widths `np.diff(r_bins)`, radii
`(r_bins[1:] + r_bins[:-1]) / 2`, densities re-sampled at the radii and
returned without renormalization (the normalization lines are commented out
in the source). -/
noncomputable def logNormalBins (rg sg : ℝ) (n : ℕ) : List ℝ × List ℝ × List ℝ :=
  let a := Real.logb 10 (rTest (selectFirst rg sg))
  let b := Real.logb 10 (rTest (selectLast rg sg))
  ((binRadii a b n).map (lnDensity rg sg), binWidths a b n, binRadii a b n)

open Classical in
/-- `log_normal_distribution(radius_g, sigma_g, n_bins)` from
`species/util/dust_util.py`.  Returns `(dn_dr, r_width, radii)`; `none`
models the IndexError raised by `r_test[indices[0]]` when no scan point
passes the 0.1%-of-maximum cut. -/
noncomputable def log_normal_distribution (radius_g sigma_g : ℝ) (n_bins : ℕ) :
    Option (List ℝ × List ℝ × List ℝ) :=
  if (scanSelect radius_g sigma_g).Nonempty then
    some (logNormalBins radius_g sigma_g n_bins)
  else none

/-- `power_law_distribution(exponent, radius_min, radius_max, n_bins)` from
`species/util/dust_util.py`: edges `np.logspace(np.log10(radius_min),
np.log10(radius_max), n_bins + 1)`, widths `np.diff`, radii the arithmetic
midpoints, density `radii ** exponent` divided by `np.sum(r_width * dn_dr)`.
Returns `(dn_dr, r_width, radii)`. -/
noncomputable def power_law_distribution (exponent radius_min radius_max : ℝ)
    (n_bins : ℕ) : List ℝ × List ℝ × List ℝ :=
  let a := Real.logb 10 radius_min
  let b := Real.logb 10 radius_max
  let dn_dr := (binRadii a b n_bins).map (fun r => r ^ exponent)
  (dn_dr.map (fun d => d / wsum (binWidths a b n_bins) dn_dr),
   binWidths a b n_bins, binRadii a b n_bins)

/-! ### Generic list/sum lemmas -/

lemma zipWith_mul_self_map {α : Type} (f g : α → ℝ) :
    ∀ l : List α, List.zipWith (fun a b => a * b) (l.map f) (l.map g) =
      l.map (fun a => f a * g a)
  | [] => rfl
  | a :: l => by simp [zipWith_mul_self_map f g l]

lemma wsum_map_range (f g : ℕ → ℝ) (n : ℕ) :
    wsum ((List.range n).map f) ((List.range n).map g) =
      ∑ k ∈ Finset.range n, f k * g k := by
  unfold wsum
  rw [zipWith_mul_self_map]
  induction n with
  | zero => simp
  | succ m ih => rw [List.range_succ, Finset.sum_range_succ, ← ih]; simp

/-! ### Monotonicity of logarithmically spaced edges -/

lemma logspace_pos (a b : ℝ) (n k : ℕ) : 0 < logspace a b n k :=
  Real.rpow_pos_of_pos (by norm_num) _

lemma logspace_strict_mono {a b : ℝ} (hab : a < b) {n : ℕ} (hn : 0 < n)
    {k l : ℕ} (hkl : k < l) : logspace a b n k < logspace a b n l := by
  unfold logspace
  rw [Real.rpow_lt_rpow_left_iff (by norm_num : (1 : ℝ) < 10)]
  have hba : 0 < b - a := sub_pos.mpr hab
  have hn0 : 0 < (n : ℝ) := Nat.cast_pos.mpr hn
  have hkl' : (k : ℝ) < (l : ℝ) := Nat.cast_lt.mpr hkl
  have h : (b - a) * (k : ℝ) / (n : ℝ) < (b - a) * (l : ℝ) / (n : ℝ) := by
    apply div_lt_div_of_pos_right ?_ hn0
    exact mul_lt_mul_of_pos_left hkl' hba
  linarith

lemma logspace_endpoint_left {x : ℝ} (hx : 0 < x) (b : ℝ) (n : ℕ) :
    logspace (Real.logb 10 x) b n 0 = x := by
  unfold logspace
  simp [Real.rpow_logb (by norm_num : (0:ℝ) < 10) (by norm_num : (10:ℝ) ≠ 1) hx]

lemma logspace_endpoint_right (a : ℝ) {x : ℝ} (hx : 0 < x) {n : ℕ} (hn : 0 < n) :
    logspace a (Real.logb 10 x) n n = x := by
  unfold logspace
  have hn0 : (n : ℝ) ≠ 0 := Nat.cast_ne_zero.mpr hn.ne'
  rw [mul_div_assoc, div_self hn0, mul_one, add_sub_cancel]
  exact Real.rpow_logb (by norm_num) (by norm_num) hx

lemma binWidths_mem_pos {a b : ℝ} (hab : a < b) {n : ℕ} (hn : 0 < n) :
    ∀ x ∈ binWidths a b n, 0 < x := by
  intro x hx
  rcases List.mem_map.mp hx with ⟨k, -, rfl⟩
  exact sub_pos.mpr (logspace_strict_mono hab hn (Nat.lt_succ_self k))

lemma logspace_strict_anti {a b : ℝ} (hab : b < a) {n : ℕ} (hn : 0 < n)
    {k l : ℕ} (hkl : k < l) : logspace a b n l < logspace a b n k := by
  unfold logspace
  rw [Real.rpow_lt_rpow_left_iff (by norm_num : (1 : ℝ) < 10)]
  have hba : b - a < 0 := sub_neg.mpr hab
  have hn0 : 0 < (n : ℝ) := Nat.cast_pos.mpr hn
  have hkl' : (k : ℝ) < (l : ℝ) := Nat.cast_lt.mpr hkl
  have h : (b - a) * (l : ℝ) / (n : ℝ) < (b - a) * (k : ℝ) / (n : ℝ) := by
    apply div_lt_div_of_pos_right ?_ hn0
    exact mul_lt_mul_of_neg_left hkl' hba
  linarith

lemma binWidths_mem_neg {a b : ℝ} (hab : b < a) {n : ℕ} (hn : 0 < n) :
    ∀ x ∈ binWidths a b n, x < 0 := by
  intro x hx
  rcases List.mem_map.mp hx with ⟨k, -, rfl⟩
  exact sub_neg.mpr (logspace_strict_anti hab hn (Nat.lt_succ_self k))

lemma binRadii_mem_pos {a b : ℝ} {n : ℕ} : ∀ x ∈ binRadii a b n, 0 < x := by
  intro x hx
  rcases List.mem_map.mp hx with ⟨k, -, rfl⟩
  have h1 := logspace_pos a b n (k + 1)
  have h2 := logspace_pos a b n k
  linarith

lemma binRadii_pairwise {a b : ℝ} (hab : a < b) {n : ℕ} (hn : 0 < n) :
    (binRadii a b n).Pairwise (· < ·) := by
  unfold binRadii
  rw [List.pairwise_map]
  apply (List.pairwise_lt_range n).imp_of_mem
  intro k l _ _ hkl
  have h1 := logspace_strict_mono hab hn (Nat.succ_lt_succ hkl)
  have h2 := logspace_strict_mono hab hn hkl
  linarith

/-- Claim C2: `power_law_distribution` places its bin edges logarithmically
spaced between `radius_min` and `radius_max` (the first and last edge are the
given bounds), sets the pre-normalization density of each bin proportional to
`radius ** exponent`, and divides by `np.sum(r_width * dn_dr)`, so the
bin-width-weighted sum of the returned densities is exactly 1 (exact real
arithmetic models the floating-point tolerance of the claim). -/
theorem power_law_distribution_normalized (exponent radius_min radius_max : ℝ)
    (n_bins : ℕ) (hmin : 0 < radius_min) (hlt : radius_min < radius_max)
    (hn : 0 < n_bins) :
    logspace (Real.logb 10 radius_min) (Real.logb 10 radius_max) n_bins 0 = radius_min ∧
    logspace (Real.logb 10 radius_min) (Real.logb 10 radius_max) n_bins n_bins = radius_max ∧
    (power_law_distribution exponent radius_min radius_max n_bins).1 =
      ((binRadii (Real.logb 10 radius_min) (Real.logb 10 radius_max) n_bins).map
        (fun r => r ^ exponent)).map
        (fun d => d / wsum (binWidths (Real.logb 10 radius_min) (Real.logb 10 radius_max) n_bins)
          ((binRadii (Real.logb 10 radius_min) (Real.logb 10 radius_max) n_bins).map
            (fun r => r ^ exponent))) ∧
    wsum (power_law_distribution exponent radius_min radius_max n_bins).2.1
      (power_law_distribution exponent radius_min radius_max n_bins).1 = 1 := by
  have hmax : 0 < radius_max := hmin.trans hlt
  have hab : Real.logb 10 radius_min < Real.logb 10 radius_max :=
    Real.logb_lt_logb (by norm_num) hmin hlt
  refine ⟨logspace_endpoint_left hmin _ _, logspace_endpoint_right _ hmax hn, rfl, ?_⟩
  set a := Real.logb 10 radius_min with ha
  set b := Real.logb 10 radius_max with hb
  simp only [power_law_distribution, binWidths, binRadii, List.map_map]
  rw [wsum_map_range, wsum_map_range]
  simp only [Function.comp]
  have hcpos : ∀ k : ℕ, 0 < (logspace a b n_bins (k + 1) + logspace a b n_bins k) / 2 := by
    intro k
    have h1 := logspace_pos a b n_bins (k + 1)
    have h2 := logspace_pos a b n_bins k
    linarith
  have hwpos : ∀ k : ℕ, 0 < logspace a b n_bins (k + 1) - logspace a b n_bins k := by
    intro k
    exact sub_pos.mpr (logspace_strict_mono hab hn (Nat.lt_succ_self k))
  have hpos : 0 < ∑ k ∈ Finset.range n_bins,
      (logspace a b n_bins (k + 1) - logspace a b n_bins k) *
        ((logspace a b n_bins (k + 1) + logspace a b n_bins k) / 2) ^ exponent := by
    apply Finset.sum_pos
    · intro k _
      exact mul_pos (hwpos k) (Real.rpow_pos_of_pos (hcpos k) _)
    · exact Finset.nonempty_range_iff.mpr hn.ne'
  rw [show (∑ k ∈ Finset.range n_bins,
        (logspace a b n_bins (k + 1) - logspace a b n_bins k) *
          (((logspace a b n_bins (k + 1) + logspace a b n_bins k) / 2) ^ exponent /
            ∑ j ∈ Finset.range n_bins,
              (logspace a b n_bins (j + 1) - logspace a b n_bins j) *
                ((logspace a b n_bins (j + 1) + logspace a b n_bins j) / 2) ^ exponent)) =
      (∑ k ∈ Finset.range n_bins,
        (logspace a b n_bins (k + 1) - logspace a b n_bins k) *
          ((logspace a b n_bins (k + 1) + logspace a b n_bins k) / 2) ^ exponent) /
        ∑ j ∈ Finset.range n_bins,
          (logspace a b n_bins (j + 1) - logspace a b n_bins j) *
            ((logspace a b n_bins (j + 1) + logspace a b n_bins j) / 2) ^ exponent from by
    rw [Finset.sum_div]
    exact Finset.sum_congr rfl (fun k _ => (mul_div_assoc _ _ _).symm)]
  exact div_self hpos.ne'

/-- Witness for C2 at `exponent = 0`, `radius_min = 1`, `radius_max = 10`,
`n_bins = 1`. -/
theorem power_law_distribution_normalized_witness :
    wsum (power_law_distribution 0 1 10 1).2.1 (power_law_distribution 0 1 10 1).1 = 1 :=
  (power_law_distribution_normalized 0 1 10 1 (by norm_num) (by norm_num)
    (by norm_num)).2.2.2

/-! ### The coarse scan of `log_normal_distribution` -/

lemma rTest_pos (i : ℕ) : 0 < rTest i := Real.rpow_pos_of_pos (by norm_num) _

lemma rTest_strict_mono {i j : ℕ} (hij : i < j) : rTest i < rTest j := by
  unfold rTest
  rw [Real.rpow_lt_rpow_left_iff (by norm_num : (1 : ℝ) < 10)]
  have hij' : (i : ℝ) < (j : ℝ) := Nat.cast_lt.mpr hij
  have h : 40 * (i : ℝ) / 999 < 40 * (j : ℝ) / 999 := by
    apply div_lt_div_of_pos_right ?_ (by norm_num)
    linarith
  linarith

lemma lnDensity_pos {rg sg r : ℝ} (hsg : 1 < sg) (hr : 0 < r) :
    0 < lnDensity rg sg r := by
  unfold lnDensity
  apply div_pos (Real.exp_pos _)
  have hs : 0 < Real.sqrt (2 * Real.pi) :=
    Real.sqrt_pos.mpr (by positivity)
  have hl : 0 < Real.log sg := Real.log_pos hsg
  positivity

lemma lnDensity_neg {rg sg r : ℝ} (hsg0 : 0 < sg) (hsg1 : sg < 1) (hr : 0 < r) :
    lnDensity rg sg r < 0 := by
  unfold lnDensity
  apply div_neg_of_pos_of_neg (Real.exp_pos _)
  have hs : 0 < Real.sqrt (2 * Real.pi) :=
    Real.sqrt_pos.mpr (by positivity)
  have hl : Real.log sg < 0 := Real.log_neg hsg0 hsg1
  have hq : 0 < r * Real.sqrt (2 * Real.pi) := mul_pos hr hs
  exact mul_neg_of_pos_of_neg hq hl

lemma scanMax_pos {rg sg : ℝ} (hsg : 1 < sg) : 0 < scanMax rg sg := by
  have h0 : scanDensity rg sg 0 ≤ scanMax rg sg :=
    Finset.le_sup' _ (Finset.mem_range.mpr (by norm_num))
  have h1 : (0:ℝ) < lnDensity rg sg (rTest 0) := lnDensity_pos hsg (rTest_pos 0)
  exact lt_of_lt_of_le h1 h0

lemma scanMax_neg {rg sg : ℝ} (hsg0 : 0 < sg) (hsg1 : sg < 1) : scanMax rg sg < 0 := by
  obtain ⟨i, -, hi⟩ := Finset.exists_mem_eq_sup'
    (Finset.nonempty_range_iff.mpr (by norm_num : (1000:ℕ) ≠ 0)) (scanDensity rg sg)
  unfold scanMax
  rw [hi]
  exact lnDensity_neg hsg0 hsg1 (rTest_pos i)

lemma scanSelect_nonempty {rg sg : ℝ} (h : scanMax rg sg ≠ 0) :
    (scanSelect rg sg).Nonempty := by
  obtain ⟨i, hmem, hi⟩ := Finset.exists_mem_eq_sup'
    (Finset.nonempty_range_iff.mpr (by norm_num : (1000:ℕ) ≠ 0)) (scanDensity rg sg)
  refine ⟨i, Finset.mem_range.mp hmem, ?_⟩
  have : scanDensity rg sg i / scanMax rg sg = 1 := by
    rw [show scanDensity rg sg i = scanMax rg sg from hi.symm]
    exact div_self h
  rw [this]
  norm_num

/-- Claim C6 counterexample: with `radius_max = 1 < 2 = radius_min` (and
`exponent = 0`, `n_bins = 1`) `power_law_distribution` does not fail with any
parameter error: it returns a size distribution, with a negative bin width
and a negative density. -/
theorem power_law_no_validation_cex :
    power_law_distribution 0 2 1 1 = ([-1], [-1], [3 / 2]) := by
  have e0 : logspace (Real.logb 10 2) (Real.logb 10 1) 1 0 = 2 :=
    logspace_endpoint_left (by norm_num) (Real.logb 10 1) 1
  have e1 : logspace (Real.logb 10 2) (Real.logb 10 1) 1 1 = 1 :=
    logspace_endpoint_right (Real.logb 10 2) (by norm_num) (by norm_num)
  simp only [power_law_distribution, binWidths, binRadii,
    show List.range 1 = [0] from rfl, List.map_cons, List.map_nil, Nat.zero_add,
    e0, e1, wsum, List.zipWith_cons_cons, List.zipWith_nil_right, List.sum_cons,
    List.sum_nil, Real.rpow_zero]
  norm_num

/-- Claim C6 (amended): the size-distribution generators perform no
parameter validation at all.  `power_law_distribution` with
`radius_max < radius_min` returns a distribution whose bin widths are all
negative instead of failing; with `n_bins = 0` it returns empty arrays; and
`log_normal_distribution` with `0 < sigma_g < 1` returns a distribution
rather than failing.  (No `InvalidParameter` error exists anywhere in the
source.) -/
theorem size_distribution_no_validation :
    (∀ (exponent radius_min radius_max : ℝ) (n_bins : ℕ), 0 < radius_max →
      radius_max < radius_min → 0 < n_bins →
      ∀ x ∈ (power_law_distribution exponent radius_min radius_max n_bins).2.1, x < 0) ∧
    (∀ exponent radius_min radius_max : ℝ,
      power_law_distribution exponent radius_min radius_max 0 = ([], [], [])) ∧
    (∀ (radius_g sigma_g : ℝ) (n_bins : ℕ), 0 < sigma_g → sigma_g < 1 →
      (log_normal_distribution radius_g sigma_g n_bins).isSome) := by
  refine ⟨?_, ?_, ?_⟩
  · intro exponent radius_min radius_max n_bins hmax hlt hn x hx
    have hab : Real.logb 10 radius_max < Real.logb 10 radius_min :=
      Real.logb_lt_logb (by norm_num) hmax hlt
    exact binWidths_mem_neg hab hn x hx
  · intro exponent radius_min radius_max
    simp [power_law_distribution, binWidths, binRadii, wsum]
  · intro radius_g sigma_g n_bins hs0 hs1
    have hne : (scanSelect radius_g sigma_g).Nonempty :=
      scanSelect_nonempty (scanMax_neg hs0 hs1).ne
    simp [log_normal_distribution, hne]

/-- Claim C8 (amended): all bin widths are positive and the bin-center radii
are strictly increasing, for `power_law_distribution` on every valid input,
and for `log_normal_distribution` whenever the coarse scan selects at least
two distinct grid points (`indices[0] < indices[-1]`).  (When the scan
selects a single point — see `log_normal_zero_width_cex` — every width is
zero and all radii coincide, so the hypothesis is necessary.) -/
theorem size_distribution_bins_monotone :
    (∀ (exponent radius_min radius_max : ℝ) (n_bins : ℕ), 0 < radius_min →
      radius_min < radius_max → 0 < n_bins →
      (∀ x ∈ (power_law_distribution exponent radius_min radius_max n_bins).2.1, 0 < x) ∧
      (power_law_distribution exponent radius_min radius_max n_bins).2.2.Pairwise (· < ·)) ∧
    (∀ (radius_g sigma_g : ℝ) (n_bins : ℕ), 0 < n_bins →
      selectFirst radius_g sigma_g < selectLast radius_g sigma_g →
      (∀ x ∈ (logNormalBins radius_g sigma_g n_bins).2.1, 0 < x) ∧
      (logNormalBins radius_g sigma_g n_bins).2.2.Pairwise (· < ·)) := by
  constructor
  · intro exponent radius_min radius_max n_bins hmin hlt hn
    have hab : Real.logb 10 radius_min < Real.logb 10 radius_max :=
      Real.logb_lt_logb (by norm_num) hmin hlt
    exact ⟨binWidths_mem_pos hab hn, binRadii_pairwise hab hn⟩
  · intro radius_g sigma_g n_bins hn hfl
    have hab : Real.logb 10 (rTest (selectFirst radius_g sigma_g)) <
        Real.logb 10 (rTest (selectLast radius_g sigma_g)) :=
      Real.logb_lt_logb (by norm_num) (rTest_pos _) (rTest_strict_mono hfl)
    exact ⟨binWidths_mem_pos hab hn, binRadii_pairwise hab hn⟩

/-! ### Analysis of the scan around a grid-aligned density peak -/

/-- The natural-log spacing of the 1000-point scan grid. -/
noncomputable def scanStep : ℝ := 40 * Real.log 10 / 999

/-- A geometric mean radius for which the continuous peak of `dn/dr` falls
exactly on scan point 500: `log radius_g = log (r_test 500) + log(sigma_g)^2`. -/
noncomputable def gridPeakRadius (sg : ℝ) : ℝ :=
  Real.exp (20 / 999 * Real.log 10 + Real.log sg ^ 2)

lemma gridPeakRadius_pos (sg : ℝ) : 0 < gridPeakRadius sg := Real.exp_pos _

lemma one_le_log_ten : 1 ≤ Real.log 10 := by
  rw [Real.le_log_iff_exp_le (by norm_num : (0:ℝ) < 10)]
  have := Real.exp_one_lt_d9
  linarith

lemma log_ten_lt : Real.log 10 < 12 / 5 := by
  rw [Real.log_lt_iff_lt_exp (by norm_num : (0:ℝ) < 10)]
  have h12 : (100000 : ℝ) < Real.exp 12 := by
    have h1 : Real.exp ((12 : ℕ) * (1 : ℝ)) = Real.exp 1 ^ (12 : ℕ) :=
      Real.exp_nat_mul 1 12
    have h2 : (2.7182818283 : ℝ) ^ (12 : ℕ) < Real.exp 1 ^ (12 : ℕ) :=
      pow_lt_pow_left Real.exp_one_gt_d9 (by norm_num) (by norm_num)
    have h3 : (100000 : ℝ) < (2.7182818283 : ℝ) ^ (12 : ℕ) := by norm_num
    calc (100000 : ℝ) < (2.7182818283 : ℝ) ^ (12 : ℕ) := h3
      _ < Real.exp 1 ^ (12 : ℕ) := h2
      _ = Real.exp 12 := by rw [← h1]; norm_num
  by_contra h
  push_neg at h
  have h5 : Real.exp ((5 : ℕ) * (12 / 5 : ℝ)) = Real.exp (12 / 5) ^ (5 : ℕ) :=
    Real.exp_nat_mul _ 5
  have h6 : Real.exp (12 / 5) ^ (5 : ℕ) ≤ (10 : ℝ) ^ (5 : ℕ) :=
    pow_le_pow_left (Real.exp_pos _).le h 5
  have h7 : Real.exp 12 ≤ 100000 := by
    have : ((5 : ℕ) : ℝ) * (12 / 5 : ℝ) = 12 := by norm_num
    rw [this] at h5
    rw [h5]
    calc Real.exp (12 / 5) ^ (5 : ℕ) ≤ (10 : ℝ) ^ (5 : ℕ) := h6
      _ = 100000 := by norm_num
  linarith

lemma log_milli : Real.log 0.001 = -(3 * Real.log 10) := by
  rw [show (0.001 : ℝ) = ((10 : ℝ) ^ (3 : ℕ))⁻¹ by norm_num, Real.log_inv, Real.log_pow]
  push_cast
  ring

lemma exp_div_shift (A T c d : ℝ) :
    Real.exp A / (Real.exp T * c * d) = Real.exp (A - T) / (c * d) := by
  rw [mul_assoc, ← div_div, ← Real.exp_sub]

/-- Ratio identity: with `radius_g = gridPeakRadius sg`, every scan density is
the scan density at point 500 damped by a Gaussian in the grid distance. -/
lemma scanDensity_peak (sg : ℝ) (hL : Real.log sg ≠ 0) (i : ℕ) :
    scanDensity (gridPeakRadius sg) sg i =
      scanDensity (gridPeakRadius sg) sg 500 *
        Real.exp (-(((i : ℝ) - 500) * scanStep) ^ 2 / (2 * Real.log sg ^ 2)) := by
  have h10 : (0 : ℝ) < 10 := by norm_num
  have hexp : ∀ j : ℕ, rTest j =
      Real.exp (Real.log 10 * ((-20 : ℝ) + 40 * (j : ℝ) / 999)) := by
    intro j
    unfold rTest
    rw [Real.rpow_def_of_pos h10]
  have hrg : Real.log (gridPeakRadius sg) =
      20 / 999 * Real.log 10 + Real.log sg ^ 2 := Real.log_exp _
  have hlogdiv : ∀ j : ℕ, Real.log (rTest j / gridPeakRadius sg) =
      Real.log 10 * ((-20 : ℝ) + 40 * (j : ℝ) / 999) -
        (20 / 999 * Real.log 10 + Real.log sg ^ 2) := by
    intro j
    rw [Real.log_div (by rw [hexp j]; exact Real.exp_ne_zero _)
      (gridPeakRadius_pos sg).ne', hexp j, Real.log_exp, hrg]
  unfold scanDensity lnDensity
  rw [hlogdiv i, hlogdiv 500, hexp i, hexp 500, exp_div_shift, exp_div_shift]
  conv_rhs => rw [div_mul_eq_mul_div, ← Real.exp_add]
  congr 1
  · congr 1
    simp only [scanStep]
    push_cast
    field_simp
    ring

lemma scanDensity_peak_le {sg : ℝ} (hsg : 1 < sg) (i : ℕ) :
    scanDensity (gridPeakRadius sg) sg i ≤ scanDensity (gridPeakRadius sg) sg 500 := by
  have hL : Real.log sg ≠ 0 := (Real.log_pos hsg).ne'
  rw [scanDensity_peak sg hL i]
  have hpos : 0 < scanDensity (gridPeakRadius sg) sg 500 :=
    lnDensity_pos hsg (rTest_pos 500)
  have hexp : Real.exp (-(((i : ℝ) - 500) * scanStep) ^ 2 / (2 * Real.log sg ^ 2)) ≤ 1 := by
    rw [Real.exp_le_one_iff, neg_div]
    exact neg_nonpos.mpr (by positivity)
  exact mul_le_of_le_one_right hpos.le hexp

lemma scanMax_peak {sg : ℝ} (hsg : 1 < sg) :
    scanMax (gridPeakRadius sg) sg = scanDensity (gridPeakRadius sg) sg 500 := by
  apply le_antisymm
  · exact Finset.sup'_le _ _ (fun i _ => scanDensity_peak_le hsg i)
  · exact Finset.le_sup' _ (Finset.mem_range.mpr (by norm_num))

/-- Membership in the selected scan range, for a grid-aligned peak: the
0.1% cut reduces to a Gaussian comparison in the grid distance from 500. -/
lemma mem_scanSelect_peak {sg : ℝ} (hsg : 1 < sg) (i : ℕ) :
    i ∈ scanSelect (gridPeakRadius sg) sg ↔
      i < 1000 ∧ (0.001 : ℝ) <
        Real.exp (-(((i : ℝ) - 500) * scanStep) ^ 2 / (2 * Real.log sg ^ 2)) := by
  have hL : Real.log sg ≠ 0 := (Real.log_pos hsg).ne'
  have hpos : 0 < scanDensity (gridPeakRadius sg) sg 500 :=
    lnDensity_pos hsg (rTest_pos 500)
  unfold scanSelect
  rw [Set.mem_setOf_eq, scanMax_peak hsg, scanDensity_peak sg hL i, mul_comm,
    mul_div_assoc, div_self hpos.ne', mul_one]

/-- With `sigma_g = 1.001` and the peak on grid point 500, only scan point
500 survives the 0.1% cut: the scan sub-range degenerates to a point. -/
lemma scanSelect_millisigma :
    scanSelect (gridPeakRadius 1.001) 1.001 = {500} := by
  have hsg : (1 : ℝ) < 1.001 := by norm_num
  have hLpos : 0 < Real.log 1.001 := Real.log_pos hsg
  have hLle : Real.log 1.001 ≤ 0.001 := by
    have := Real.log_le_sub_one_of_pos (show (0:ℝ) < 1.001 by norm_num)
    linarith
  have hG1 : 1 ≤ Real.log 10 := one_le_log_ten
  ext i
  rw [Set.mem_singleton_iff, mem_scanSelect_peak hsg i]
  constructor
  · rintro ⟨hi, hgt⟩
    by_contra hne
    have hsq : (1 : ℝ) ≤ ((i : ℝ) - 500) ^ 2 := by
      rcases Nat.lt_or_ge i 500 with hlt | hge
      · have : (i : ℝ) ≤ 499 := by exact_mod_cast Nat.le_of_lt_succ hlt
        nlinarith
      · have h501 : 501 ≤ i := Nat.lt_of_le_of_ne hge (fun h => hne h.symm)
        have : (501 : ℝ) ≤ (i : ℝ) := by exact_mod_cast h501
        nlinarith
    have hstep : scanStep ^ 2 ≤ (((i : ℝ) - 500) * scanStep) ^ 2 := by
      have h0 : 0 ≤ scanStep ^ 2 := sq_nonneg _
      calc scanStep ^ 2 = 1 * scanStep ^ 2 := (one_mul _).symm
        _ ≤ ((i : ℝ) - 500) ^ 2 * scanStep ^ 2 := by
            exact mul_le_mul_of_nonneg_right hsq h0
        _ = (((i : ℝ) - 500) * scanStep) ^ 2 := (mul_pow _ _ _).symm
    have hL2 : Real.log 1.001 ^ 2 ≤ 0.000001 := by nlinarith [hLpos, hLle]
    have hGG : Real.log 10 ≤ Real.log 10 ^ 2 := by nlinarith [hG1]
    have hkey : 3 * Real.log 10 * (2 * Real.log 1.001 ^ 2) ≤ scanStep ^ 2 := by
      simp only [scanStep]
      rw [div_pow]
      rw [le_div_iff₀ (by norm_num : (0:ℝ) < 999 ^ 2)]
      nlinarith [mul_le_mul_of_nonneg_left hL2
        (le_trans zero_le_one hG1 : (0:ℝ) ≤ Real.log 10)]
    have h2L : (0:ℝ) < 2 * Real.log 1.001 ^ 2 := by positivity
    have hle : Real.exp (-(((i : ℝ) - 500) * scanStep) ^ 2 / (2 * Real.log 1.001 ^ 2)) ≤
        Real.exp (Real.log 0.001) := by
      rw [Real.exp_le_exp, log_milli, neg_div, neg_le_neg_iff, le_div_iff₀ h2L]
      linarith [hkey, hstep]
    rw [Real.exp_log (by norm_num : (0:ℝ) < 0.001)] at hle
    linarith
  · rintro rfl
    refine ⟨by norm_num, ?_⟩
    have : ((500 : ℕ) : ℝ) - 500 = 0 := by push_cast; ring
    rw [this]
    simp [Real.exp_zero]
    norm_num

/-- Claim C8 counterexample: at `sigma_g = 1.001` (with the peak of the
distribution aligned to scan point 500) `log_normal_distribution` succeeds
but returns a bin width equal to `0` and hence no strictly positive widths:
the scan sub-range has degenerated to a single grid point. -/
theorem log_normal_zero_width_cex :
    log_normal_distribution (gridPeakRadius 1.001) 1.001 1 =
      some ([lnDensity (gridPeakRadius 1.001) 1.001 (rTest 500)], [0], [rTest 500]) := by
  have hsel := scanSelect_millisigma
  have hfirst : selectFirst (gridPeakRadius 1.001) 1.001 = 500 := by
    unfold selectFirst
    rw [hsel]
    exact csInf_singleton 500
  have hlast : selectLast (gridPeakRadius 1.001) 1.001 = 500 := by
    unfold selectLast
    rw [hsel]
    exact csSup_singleton 500
  have hne : (scanSelect (gridPeakRadius 1.001) 1.001).Nonempty := by
    rw [hsel]
    exact ⟨500, rfl⟩
  have hlsp : ∀ k : ℕ,
      logspace (Real.logb 10 (rTest 500)) (Real.logb 10 (rTest 500)) 1 k = rTest 500 := by
    intro k
    unfold logspace
    rw [sub_self, zero_mul, zero_div, add_zero]
    exact Real.rpow_logb (by norm_num) (by norm_num) (rTest_pos 500)
  have hxx : (rTest 500 + rTest 500) / 2 = rTest 500 := by ring
  unfold log_normal_distribution
  rw [if_pos hne]
  unfold logNormalBins
  rw [hfirst, hlast]
  simp only [binWidths, binRadii, show List.range 1 = [0] from rfl, List.map_cons,
    List.map_nil, hlsp, hxx, sub_self]

lemma sigma_two_mem_500 : 500 ∈ scanSelect (gridPeakRadius 2) 2 := by
  rw [mem_scanSelect_peak (by norm_num : (1:ℝ) < 2)]
  refine ⟨by norm_num, ?_⟩
  have hcast : ((500 : ℕ) : ℝ) - 500 = 0 := by push_cast; ring
  rw [hcast]
  simp [Real.exp_zero]
  norm_num

lemma sigma_two_mem_501 : 501 ∈ scanSelect (gridPeakRadius 2) 2 := by
  rw [mem_scanSelect_peak (by norm_num : (1:ℝ) < 2)]
  refine ⟨by norm_num, ?_⟩
  have hcast : ((501 : ℕ) : ℝ) - 500 = 1 := by push_cast; ring
  rw [hcast, one_mul]
  rw [← Real.exp_log (show (0:ℝ) < 0.001 by norm_num), Real.exp_lt_exp, log_milli]
  have hG1 := one_le_log_ten
  have hGlt := log_ten_lt
  have hL := Real.log_two_gt_d9
  have hGpos : (0:ℝ) < Real.log 10 := lt_of_lt_of_le zero_lt_one hG1
  have h2L : (0:ℝ) < 2 * Real.log 2 ^ 2 := by positivity
  rw [neg_div, neg_lt_neg_iff, div_lt_iff₀ h2L]
  simp only [scanStep]
  rw [div_pow, div_lt_iff₀ (by norm_num : (0:ℝ) < 999 ^ 2)]
  have hGG : Real.log 10 * Real.log 10 < Real.log 10 * (12 / 5) :=
    mul_lt_mul_of_pos_left hGlt hGpos
  have hL2 : Real.log 10 * 0.48 < Real.log 10 * Real.log 2 ^ 2 := by
    apply mul_lt_mul_of_pos_left ?_ hGpos
    nlinarith [hL]
  nlinarith [hGG, hL2, hGpos]

/-- With `sigma_g = 2` and the peak aligned to scan point 500, the scan
selects at least two distinct grid points. -/
lemma sigma_two_nondegenerate :
    selectFirst (gridPeakRadius 2) 2 < selectLast (gridPeakRadius 2) 2 := by
  have hbdd : BddAbove (scanSelect (gridPeakRadius 2) 2) :=
    ⟨1000, fun x hx => hx.1.le⟩
  have hf : selectFirst (gridPeakRadius 2) 2 ≤ 500 := Nat.sInf_le sigma_two_mem_500
  have hl : 501 ≤ selectLast (gridPeakRadius 2) 2 := le_csSup hbdd sigma_two_mem_501
  omega

open Classical in
/-- The scan indices passing the 0.1% cut, written as claim C1 words it: the
subset of the 1000-point grid where the un-normalized density exceeds 0.001
of its maximum. -/
noncomputable def claimScanIndices (rg sg : ℝ) : Finset ℕ :=
  (Finset.range 1000).filter (fun i => 0.001 < scanDensity rg sg i / scanMax rg sg)

open Classical in
/-- Transcription of claim C1's description of `log_normal_distribution`:
scan a 1000-point logarithmic radius grid spanning 40 decades, select the
sub-range of that grid where the un-normalized log-normal density exceeds
0.001 of its maximum (from the first to the last qualifying grid point),
place `n_bins + 1` logarithmically spaced bin edges across exactly that
sub-range, sample the un-normalized density at the arithmetic bin centers,
and return those density values without renormalizing them. -/
noncomputable def logNormalClaimBins (rg sg : ℝ) (n : ℕ) : List ℝ × List ℝ × List ℝ :=
  if h : (claimScanIndices rg sg).Nonempty then
    ((binRadii (Real.logb 10 (rTest ((claimScanIndices rg sg).min' h)))
        (Real.logb 10 (rTest ((claimScanIndices rg sg).max' h))) n).map (lnDensity rg sg),
     binWidths (Real.logb 10 (rTest ((claimScanIndices rg sg).min' h)))
        (Real.logb 10 (rTest ((claimScanIndices rg sg).max' h))) n,
     binRadii (Real.logb 10 (rTest ((claimScanIndices rg sg).min' h)))
        (Real.logb 10 (rTest ((claimScanIndices rg sg).max' h))) n)
  else ([], [], [])

/-- Claim C1: for every `radius_g > 0`, `sigma_g > 1` and `n_bins > 0`,
`log_normal_distribution` succeeds and returns exactly what the claim
describes (`logNormalClaimBins`): the 1000-point scan over 40 decades, the
0.1%-of-maximum sub-range selection, `n_bins + 1` log-spaced edges across
that sub-range, densities sampled at the arithmetic bin centers, and no
renormalization of the returned densities (so their width-weighted sum is
left as computed). -/
theorem log_normal_distribution_matches_claim (radius_g sigma_g : ℝ) (n_bins : ℕ)
    (hrg : 0 < radius_g) (hsg : 1 < sigma_g) (hn : 0 < n_bins) :
    log_normal_distribution radius_g sigma_g n_bins =
      some (logNormalClaimBins radius_g sigma_g n_bins) := by
  have hset : scanSelect radius_g sigma_g = ↑(claimScanIndices radius_g sigma_g) := by
    ext i
    simp only [scanSelect, claimScanIndices, Set.mem_setOf_eq, Finset.coe_filter,
      Finset.mem_range]
  have hne : (scanSelect radius_g sigma_g).Nonempty :=
    scanSelect_nonempty (scanMax_pos hsg).ne'
  have hneF : (claimScanIndices radius_g sigma_g).Nonempty := by
    rw [hset] at hne
    exact Finset.coe_nonempty.mp hne
  have hfirst : selectFirst radius_g sigma_g = (claimScanIndices radius_g sigma_g).min' hneF := by
    unfold selectFirst
    rw [hset]
    exact hneF.csInf_eq_min'
  have hlast : selectLast radius_g sigma_g = (claimScanIndices radius_g sigma_g).max' hneF := by
    unfold selectLast
    rw [hset]
    exact hneF.csSup_eq_max'
  unfold log_normal_distribution
  rw [if_pos hne]
  unfold logNormalBins logNormalClaimBins
  rw [dif_pos hneF, hfirst, hlast]

/-- Witness for C1 at `radius_g = 1`, `sigma_g = 2`, `n_bins = 5`. -/
theorem log_normal_distribution_matches_claim_witness :
    log_normal_distribution 1 2 5 = some (logNormalClaimBins 1 2 5) :=
  log_normal_distribution_matches_claim 1 2 5 one_pos one_lt_two (by norm_num)

/-! ### Mie cross sections (`dust_cross_section`) -/

/-- The external PyMieScatt collaborator: `MieQ(m, wavelength_nm, diameter_nm)`
returning the extinction efficiency `Qext`, or `none` when the returned
dictionary has no `Qext` entry. -/
def MieSolver : Type := ℂ → ℝ → ℝ → Option ℝ

/-- `dust_cross_section(dn_dr, r_width, radii, wavelength, n_index, k_index)`
from `species/util/dust_util.py`: iterates over `radii`, calls the Mie solver
with `complex(n_index, k_index)`, the wavelength converted to nm
(`wavelength*1e3`) and the diameter in nm (`2*item*1e3`), and accumulates
`np.pi * item**2 * Qext * dn_dr[i] * r_width[i]`.  `none` models the
ValueError raised when `Qext` is missing from the solver result (or the
IndexError when `dn_dr`/`r_width` are shorter than `radii`). -/
noncomputable def dust_cross_section (mie : MieSolver) (wavelength n_index k_index : ℝ) :
    List ℝ → List ℝ → List ℝ → Option ℝ
  | _, _, [] => some 0
  | d :: ds, w :: ws, r :: rs =>
    match mie ⟨n_index, k_index⟩ (wavelength * 1000) (2 * r * 1000) with
    | some q =>
      (dust_cross_section mie wavelength n_index k_index ds ws rs).map
        (fun c => Real.pi * r ^ 2 * q * d * w + c)
    | none => none
  | _, _, _ => none

lemma dust_cross_section_sum (mie : MieSolver) (wavelength n_index k_index : ℝ) :
    ∀ (radii dn r_width : List ℝ) (q : ℕ → ℝ), dn.length = radii.length →
      r_width.length = radii.length →
      (∀ i, i < radii.length →
        mie ⟨n_index, k_index⟩ (wavelength * 1000) (2 * radii.getD i 0 * 1000) =
          some (q i)) →
      dust_cross_section mie wavelength n_index k_index dn r_width radii =
        some (∑ i ∈ Finset.range radii.length,
          Real.pi * radii.getD i 0 ^ 2 * q i * dn.getD i 0 * r_width.getD i 0) := by
  intro radii
  induction radii with
  | nil =>
    intro dn r_width q hd hw hq
    simp [dust_cross_section]
  | cons r rs ih =>
    intro dn r_width q hd hw hq
    match dn, hd with
    | d :: ds, hd =>
      match r_width, hw with
      | w :: ws, hw =>
        have h0 := hq 0 (by simp)
        simp only [List.getD_cons_zero] at h0
        have hrec := ih ds ws (fun i => q (i + 1)) (by simpa using hd)
          (by simpa using hw)
          (fun i hi => by simpa using hq (i + 1) (by simpa using hi))
        simp only [dust_cross_section, h0, hrec, Option.map_some']
        simp only [List.length_cons]
        rw [Finset.sum_range_succ']
        simp only [List.getD_cons_succ, List.getD_cons_zero, Option.some.injEq]
        ring

/-- Claim C3: for every size distribution given as equal-length arrays
`(dn_dr, r_width, radii)`, every wavelength and every refractive index
`(n_index, k_index)`, `dust_cross_section` returns exactly the sum over bins
of `pi * radii[i]^2 * Qext_i * dn_dr[i] * r_width[i]`, where `Qext_i` is the
extinction efficiency the Mie solver reports for a homogeneous sphere of
diameter `2 * radii[i]` at that wavelength, the radius having been converted
to a diameter and micrometers to nanometers (`* 1e3`) for the solver. -/
theorem dust_cross_section_is_weighted_mie_sum (mie : MieSolver)
    (dn r_width radii : List ℝ) (wavelength n_index k_index : ℝ) (q : ℕ → ℝ)
    (hd : dn.length = radii.length) (hw : r_width.length = radii.length)
    (hq : ∀ i, i < radii.length →
      mie ⟨n_index, k_index⟩ (wavelength * 1000) (2 * radii.getD i 0 * 1000) =
        some (q i)) :
    dust_cross_section mie wavelength n_index k_index dn r_width radii =
      some (∑ i ∈ Finset.range radii.length,
        Real.pi * radii.getD i 0 ^ 2 * q i * dn.getD i 0 * r_width.getD i 0) :=
  dust_cross_section_sum mie wavelength n_index k_index radii dn r_width q hd hw hq

/-- Witness for C3: a one-bin distribution with a solver constantly
reporting `Qext = 1`. -/
theorem dust_cross_section_is_weighted_mie_sum_witness :
    dust_cross_section (fun _ _ _ => some 1) 1 1 0 [1] [1] [1] =
      some (∑ i ∈ Finset.range 1,
        Real.pi * [(1:ℝ)].getD i 0 ^ 2 * 1 * [(1:ℝ)].getD i 0 * [(1:ℝ)].getD i 0) :=
  dust_cross_section_is_weighted_mie_sum (fun _ _ _ => some 1) [1] [1] [1] 1 1 0
    (fun _ => 1) rfl rfl (fun _ _ => rfl)

/-! ### `ism_extinction` (Cardelli et al. 1989) -/

/-- The `a(x)` coefficient of `ism_extinction`, written exactly as the two
masked-array writes of the source: zeros, the IR power law where `x < 1.1`,
then the optical/NIR 7th-order polynomial in `y = x - 1.82` where
`x >= 1.1`. -/
noncomputable def aCoeff (x : ℝ) : ℝ :=
  if 1.1 ≤ x then
    1 + 0.17699 * (x - 1.82) - 0.50447 * (x - 1.82) ^ 2 - 0.02427 * (x - 1.82) ^ 3 +
      0.72085 * (x - 1.82) ^ 4 + 0.01979 * (x - 1.82) ^ 5 - 0.77530 * (x - 1.82) ^ 6 +
      0.32999 * (x - 1.82) ^ 7
  else if x < 1.1 then 0.574 * x ^ (1.61 : ℝ) else 0

/-- The `b(x)` coefficient of `ism_extinction`, as in `aCoeff`. -/
noncomputable def bCoeff (x : ℝ) : ℝ :=
  if 1.1 ≤ x then
    1.41338 * (x - 1.82) + 2.28305 * (x - 1.82) ^ 2 + 1.07233 * (x - 1.82) ^ 3 -
      5.38434 * (x - 1.82) ^ 4 - 0.62251 * (x - 1.82) ^ 5 + 5.30260 * (x - 1.82) ^ 6 -
      2.09002 * (x - 1.82) ^ 7
  else if x < 1.1 then -0.527 * x ^ (1.61 : ℝ) else 0

/-- `ism_extinction(av_mag, rv_red, wavelengths)` from
`species/util/dust_util.py`: elementwise `x = 1/wavelength`, coefficients by
the two masked writes, output `av_mag * (a_coeff + b_coeff / rv_red)`. -/
noncomputable def ism_extinction (av_mag rv_red : ℝ) (wavelengths : List ℝ) : List ℝ :=
  wavelengths.map (fun w => av_mag * (aCoeff (1 / w) + bCoeff (1 / w) / rv_red))

/-- Claim C5: for every `av_mag`, every `rv_red ≠ 0` and every array of
positive wavelengths, `ism_extinction` computes elementwise `a(x)` and `b(x)`
from the 7th-order polynomials in `y = 1/wavelength - 1.82` when
`1/wavelength >= 1.1` and from the power laws `a = 0.574 x^1.61`,
`b = -0.527 x^1.61` when `1/wavelength < 1.1`, and returns
`A(wavelength) = av_mag * (a + b / rv_red)` for every element, as a pure
function of its arguments (output length equals input length). -/
theorem ism_extinction_formula (av_mag rv_red : ℝ) (wavelengths : List ℝ)
    (hrv : rv_red ≠ 0) (hw : ∀ w ∈ wavelengths, 0 < w) :
    (ism_extinction av_mag rv_red wavelengths).length = wavelengths.length ∧
    ∀ i, ∀ h : i < wavelengths.length,
      (ism_extinction av_mag rv_red wavelengths).getD i 0 =
        (if 1.1 ≤ 1 / wavelengths[i] then
          av_mag * ((1 + 0.17699 * (1 / wavelengths[i] - 1.82) -
              0.50447 * (1 / wavelengths[i] - 1.82) ^ 2 -
              0.02427 * (1 / wavelengths[i] - 1.82) ^ 3 +
              0.72085 * (1 / wavelengths[i] - 1.82) ^ 4 +
              0.01979 * (1 / wavelengths[i] - 1.82) ^ 5 -
              0.77530 * (1 / wavelengths[i] - 1.82) ^ 6 +
              0.32999 * (1 / wavelengths[i] - 1.82) ^ 7) +
            (1.41338 * (1 / wavelengths[i] - 1.82) +
              2.28305 * (1 / wavelengths[i] - 1.82) ^ 2 +
              1.07233 * (1 / wavelengths[i] - 1.82) ^ 3 -
              5.38434 * (1 / wavelengths[i] - 1.82) ^ 4 -
              0.62251 * (1 / wavelengths[i] - 1.82) ^ 5 +
              5.30260 * (1 / wavelengths[i] - 1.82) ^ 6 -
              2.09002 * (1 / wavelengths[i] - 1.82) ^ 7) / rv_red)
        else
          av_mag * (0.574 * (1 / wavelengths[i]) ^ (1.61 : ℝ) +
            (-0.527 * (1 / wavelengths[i]) ^ (1.61 : ℝ)) / rv_red)) := by
  constructor
  · exact List.length_map wavelengths _
  · intro i h
    have hlen : i < (ism_extinction av_mag rv_red wavelengths).length := by
      unfold ism_extinction
      rw [List.length_map]
      exact h
    rw [List.getD_eq_getElem _ 0 hlen]
    unfold ism_extinction
    rw [List.getElem_map]
    by_cases hx : 1.1 ≤ 1 / wavelengths[i]
    · rw [if_pos hx]
      unfold aCoeff bCoeff
      rw [if_pos hx, if_pos hx]
    · rw [if_neg hx]
      unfold aCoeff bCoeff
      rw [if_neg hx, if_neg hx, if_pos (not_le.mp hx), if_pos (not_le.mp hx)]

/-- Witness for C5 at `av_mag = 1`, `rv_red = 1`, `wavelengths = [2]`. -/
theorem ism_extinction_formula_witness :
    (ism_extinction 1 1 [2]).length = [(2:ℝ)].length :=
  (ism_extinction_formula 1 1 [2] one_ne_zero (by norm_num)).1

/-! ### `calc_reddening` -/

/-- `np.argmin(np.abs(data[:, 0] - w))` followed by reading the row: the
first dataset row whose wavelength (column 0) is closest to `w`; `none` for
an empty dataset (numpy raises on an empty argmin). -/
noncomputable def nearestRow : List (ℝ × ℝ × ℝ) → ℝ → Option (ℝ × ℝ × ℝ)
  | [], _ => none
  | row :: rest, w =>
    match nearestRow rest w with
    | none => some row
    | some best => if |best.1 - w| < |row.1 - w| then some best else some row

/-- The external collaborators of `calc_reddening`: the filter reader
(`ReadFilter(item).mean_wavelength()`), the dust datasets read from the HDF5
store (`dust/mgsio3/crystalline/axis_1..3` and the three alternative
composition/structure datasets, each a list of `(wavelength, n, k)` rows),
and the Mie solver. -/
structure ReddeningEnv where
  meanWavelength : String → ℝ
  crystallineAxis : ℕ → List (ℝ × ℝ × ℝ)
  amorphousMgSiO3 : List (ℝ × ℝ × ℝ)
  crystallineFe : List (ℝ × ℝ × ℝ)
  amorphousFe : List (ℝ × ℝ × ℝ)
  mie : MieSolver

/-- The `data = h5_file[...]` selection of the non-crystalline-MgSiO3 branch
of `calc_reddening`; `none` models the NameError: for any pair outside the
three alternatives listed there, `data` is never assigned yet is read. -/
def altLookup (env : ReddeningEnv) (composition struct : String) :
    Option (List (ℝ × ℝ × ℝ)) :=
  if composition = "MgSiO3" ∧ struct = "amorphous" then some env.amorphousMgSiO3
  else if composition = "Fe" ∧ struct = "crystalline" then some env.crystallineFe
  else if composition = "Fe" ∧ struct = "amorphous" then some env.amorphousFe
  else none

/-- One filter's `c_ext[item]` in the `MgSiO3`/`crystalline` branch of
`calc_reddening`: the three `axis_{i+1}` datasets are looked up at the
tabulated wavelength nearest the filter's mean wavelength, and the three
ensemble cross sections are averaged (`/ 3.` assigned, then `+=` twice). -/
noncomputable def cExtCrystalline (env : ReddeningEnv)
    (dn_dr r_width radii : List ℝ) (filterName : String) : Option ℝ := do
  let w := env.meanWavelength filterName
  let row1 ← nearestRow (env.crystallineAxis 1) w
  let c1 ← dust_cross_section env.mie row1.1 row1.2.1 row1.2.2 dn_dr r_width radii
  let row2 ← nearestRow (env.crystallineAxis 2) w
  let c2 ← dust_cross_section env.mie row2.1 row2.2.1 row2.2.2 dn_dr r_width radii
  let row3 ← nearestRow (env.crystallineAxis 3) w
  let c3 ← dust_cross_section env.mie row3.1 row3.2.1 row3.2.2 dn_dr r_width radii
  pure (c1 / 3 + c2 / 3 + c3 / 3)

/-- One iteration of the `for item in filters` loop of `calc_reddening`,
threading the `c_ext` dictionary (modelled as an association list, newest
entry first).  In the non-(MgSiO3, crystalline) branch the source reads
`c_ext[item]` with `+=` before any assignment (modelled by the `state.lookup`
bind, which fails like the KeyError does) after reading `data` (which for
undocumented pairs is unbound, the `altLookup` failure). -/
noncomputable def calcStep (env : ReddeningEnv) (composition struct : String)
    (dn_dr r_width radii : List ℝ) (state : List (String × ℝ)) (f : String) :
    Option (List (String × ℝ)) :=
  if composition = "MgSiO3" ∧ struct = "crystalline" then
    (cExtCrystalline env dn_dr r_width radii f).map (fun v => (f, v) :: state)
  else do
    let data ← altLookup env composition struct
    let row ← nearestRow data (env.meanWavelength f)
    let c ← dust_cross_section env.mie row.1 row.2.1 row.2.2 dn_dr r_width radii
    let prev ← state.lookup f
    pure ((f, prev + c / 3) :: state)

/-- `np.log10(np.exp(1.))`. -/
noncomputable def log10e : ℝ := Real.logb 10 (Real.exp 1)

lemma log10e_eq : log10e = 1 / Real.log 10 := by
  unfold log10e Real.logb
  rw [Real.log_exp]

lemma log10e_pos : 0 < log10e := by
  rw [log10e_eq]
  exact div_pos one_pos (Real.log_pos (by norm_num))

/-- `calc_reddening(filters_color, extinction, composition, structure,
radius_g)` from `species/util/dust_util.py`: builds a log-normal size
distribution with `sigma_g = 2` and `n_bins = 100`, computes `c_ext` for the
reference filter and the two colour filters, derives
`n_grains = extinction[1] / c_ext[extinction[0]] / 2.5 / np.log10(np.exp(1.))`
and returns `2.5 * np.log10(np.exp(1.)) * c_ext[f] * n_grains` for the two
colour filters.  `none` models any uncaught exception on the way. -/
noncomputable def calc_reddening (env : ReddeningEnv)
    (filters_color : String × String) (extinction : String × ℝ)
    (composition struct : String) (radius_g : ℝ) : Option (ℝ × ℝ) := do
  let bins ← log_normal_distribution radius_g 2 100
  let cext ← List.foldlM (calcStep env composition struct bins.1 bins.2.1 bins.2.2) []
    [extinction.1, filters_color.1, filters_color.2]
  let cref ← cext.lookup extinction.1
  let ca ← cext.lookup filters_color.1
  let cb ← cext.lookup filters_color.2
  let n_grains := extinction.2 / cref / 2.5 / log10e
  pure (2.5 * log10e * ca * n_grains, 2.5 * log10e * cb * n_grains)

/-- Claim C9: for every (composition, structure) pair other than
`('MgSiO3', 'crystalline')` — including the documented alternatives
`('MgSiO3', 'amorphous')`, `('Fe', 'crystalline')` and `('Fe', 'amorphous')`
— `calc_reddening` raises an unhandled exception before returning a result:
the alternative branch accumulates into `c_ext[item]` with `+=` before any
value has been assigned to that key (KeyError), and for pairs outside the
four documented combinations the `data` variable is read without ever being
assigned (NameError).  Both failure modes are `none` in the embedding. -/
theorem calc_reddening_other_compositions_fail (env : ReddeningEnv)
    (filters_color : String × String) (extinction : String × ℝ)
    (composition struct : String) (radius_g : ℝ)
    (h : ¬(composition = "MgSiO3" ∧ struct = "crystalline")) :
    calc_reddening env filters_color extinction composition struct radius_g = none := by
  have hstep : ∀ (dn w r : List ℝ) (f : String),
      calcStep env composition struct dn w r [] f = none := by
    intro dn w r f
    unfold calcStep
    rw [if_neg h]
    cases haltd : altLookup env composition struct with
    | none => rfl
    | some data =>
      cases hrow : nearestRow data (env.meanWavelength f) with
      | none => simp [haltd, hrow]
      | some row =>
        cases hcs : dust_cross_section env.mie row.1 row.2.1 row.2.2 dn w r with
        | none => simp [haltd, hrow, hcs]
        | some c => simp [haltd, hrow, hcs, List.lookup]
  unfold calc_reddening
  cases hln : log_normal_distribution radius_g 2 100 with
  | none => rfl
  | some bins =>
    simp [hln, List.foldlM, hstep bins.1 bins.2.1 bins.2.2]

/-- A trivial concrete set of collaborators for witnesses: every filter has
mean wavelength 1, each crystalline axis dataset has the single row
`(1, 1, 0)`, the alternative datasets are empty, and the Mie solver always
reports `Qext = 1`. -/
noncomputable def trivialEnv : ReddeningEnv where
  meanWavelength := fun _ => 1
  crystallineAxis := fun _ => [(1, 1, 0)]
  amorphousMgSiO3 := []
  crystallineFe := []
  amorphousFe := []
  mie := fun _ _ _ => some 1

/-- Witness for C9 at the documented pair `('Fe', 'amorphous')`. -/
theorem calc_reddening_other_compositions_fail_witness :
    calc_reddening trivialEnv ("a", "b") ("v", 1) "Fe" "amorphous" 1 = none :=
  calc_reddening_other_compositions_fail trivialEnv ("a", "b") ("v", 1)
    "Fe" "amorphous" 1 (by decide)

/-- Claim C4: in the `MgSiO3`/`crystalline` configuration, whenever the three
per-filter ensemble cross sections evaluate (to `sref`, `sa`, `sb`, each the
3-axis average of `dust_cross_section` of the `sigma_g = 2`, 100-bin
log-normal distribution at the tabulated wavelength nearest each filter's
mean wavelength) with `sref ≠ 0`, `calc_reddening` derives the grain column
density `n_grains = a_ref / sref / 2.5 / log10(e)` and returns
`2.5 * log10(e) * s_i * n_grains` for the two requested filters — which
equals `a_ref * s_i / sref` for each. -/
theorem calc_reddening_scales_reference (env : ReddeningEnv)
    (fa fb fref : String) (a_ref radius_g sref sa sb : ℝ)
    (hrg : 0 < radius_g)
    (href : cExtCrystalline env (logNormalBins radius_g 2 100).1
      (logNormalBins radius_g 2 100).2.1 (logNormalBins radius_g 2 100).2.2 fref =
        some sref)
    (ha : cExtCrystalline env (logNormalBins radius_g 2 100).1
      (logNormalBins radius_g 2 100).2.1 (logNormalBins radius_g 2 100).2.2 fa =
        some sa)
    (hb : cExtCrystalline env (logNormalBins radius_g 2 100).1
      (logNormalBins radius_g 2 100).2.1 (logNormalBins radius_g 2 100).2.2 fb =
        some sb)
    (hsref : sref ≠ 0) :
    calc_reddening env (fa, fb) (fref, a_ref) "MgSiO3" "crystalline" radius_g =
      some (2.5 * log10e * sa * (a_ref / sref / 2.5 / log10e),
        2.5 * log10e * sb * (a_ref / sref / 2.5 / log10e)) ∧
    calc_reddening env (fa, fb) (fref, a_ref) "MgSiO3" "crystalline" radius_g =
      some (a_ref * sa / sref, a_ref * sb / sref) := by
  have hsome : log_normal_distribution radius_g 2 100 =
      some (logNormalBins radius_g 2 100) := by
    unfold log_normal_distribution
    rw [if_pos (scanSelect_nonempty (scanMax_pos one_lt_two).ne')]
  have hstep : ∀ (state : List (String × ℝ)) (f : String) (v : ℝ),
      cExtCrystalline env (logNormalBins radius_g 2 100).1
        (logNormalBins radius_g 2 100).2.1 (logNormalBins radius_g 2 100).2.2 f =
          some v →
      calcStep env "MgSiO3" "crystalline" (logNormalBins radius_g 2 100).1
        (logNormalBins radius_g 2 100).2.1 (logNormalBins radius_g 2 100).2.2
        state f = some ((f, v) :: state) := by
    intro state f v hv
    unfold calcStep
    rw [if_pos ⟨rfl, rfl⟩, hv]
    rfl
  have hfold : List.foldlM (calcStep env "MgSiO3" "crystalline"
      (logNormalBins radius_g 2 100).1 (logNormalBins radius_g 2 100).2.1
      (logNormalBins radius_g 2 100).2.2) [] [fref, fa, fb] =
        some [(fb, sb), (fa, sa), (fref, sref)] := by
    simp [List.foldlM, hstep [] fref sref href, hstep [(fref, sref)] fa sa ha,
      hstep [(fa, sa), (fref, sref)] fb sb hb]
  have hlb : List.lookup fb [(fb, sb), (fa, sa), (fref, sref)] = some sb := by
    simp [List.lookup]
  have hla : List.lookup fa [(fb, sb), (fa, sa), (fref, sref)] = some sa := by
    by_cases h1 : fa = fb
    · have hab : sa = sb := by
        rw [h1] at ha
        rw [ha] at hb
        exact Option.some.inj hb
      simp [List.lookup, h1, hab]
    · have : (fa == fb) = false := beq_eq_false_iff_ne.mpr h1
      simp [List.lookup, this]
  have hlref : List.lookup fref [(fb, sb), (fa, sa), (fref, sref)] = some sref := by
    by_cases h1 : fref = fb
    · have hrb : sref = sb := by
        rw [h1] at href
        rw [href] at hb
        exact Option.some.inj hb
      simp [List.lookup, h1, hrb]
    · have hb1 : (fref == fb) = false := beq_eq_false_iff_ne.mpr h1
      by_cases h2 : fref = fa
      · have hra : sref = sa := by
          rw [h2] at href
          rw [href] at ha
          exact Option.some.inj ha
        rw [h2, hra]
        by_cases hab : fa = fb
        · have hsab : sa = sb := by
            rw [hab] at ha
            rw [ha] at hb
            exact Option.some.inj hb
          simp [List.lookup, hab, hsab]
        · have hfab : (fa == fb) = false := beq_eq_false_iff_ne.mpr hab
          simp [List.lookup, hfab]
      · have hb2 : (fref == fa) = false := beq_eq_false_iff_ne.mpr h2
        simp [List.lookup, hb1, hb2]
  have hmain : calc_reddening env (fa, fb) (fref, a_ref) "MgSiO3" "crystalline"
      radius_g = some (2.5 * log10e * sa * (a_ref / sref / 2.5 / log10e),
        2.5 * log10e * sb * (a_ref / sref / 2.5 / log10e)) := by
    unfold calc_reddening
    rw [hsome]
    simp only [Option.bind_eq_bind, Option.some_bind]
    rw [hfold]
    simp only [Option.some_bind]
    rw [hlref]
    simp only [Option.some_bind]
    rw [hla]
    simp only [Option.some_bind]
    rw [hlb]
    rfl
  refine ⟨hmain, ?_⟩
  rw [hmain]
  have hsimp : ∀ s : ℝ, 2.5 * log10e * s * (a_ref / sref / 2.5 / log10e) =
      a_ref * s / sref := by
    intro s
    have hl0 : log10e ≠ 0 := ne_of_gt log10e_pos
    field_simp [hl0, hsref]
    ring
  rw [hsimp sa, hsimp sb]

/-! ### A concrete witness configuration for `calc_reddening` -/

lemma logNormalBins_components (rg sg : ℝ) (n : ℕ) :
    logNormalBins rg sg n =
      ((binRadii (Real.logb 10 (rTest (selectFirst rg sg)))
          (Real.logb 10 (rTest (selectLast rg sg))) n).map (lnDensity rg sg),
       binWidths (Real.logb 10 (rTest (selectFirst rg sg)))
          (Real.logb 10 (rTest (selectLast rg sg))) n,
       binRadii (Real.logb 10 (rTest (selectFirst rg sg)))
          (Real.logb 10 (rTest (selectLast rg sg))) n) := rfl

/-- First log-spaced-edge exponent of the witness distribution. -/
noncomputable def witA : ℝ := Real.logb 10 (rTest (selectFirst (gridPeakRadius 2) 2))

/-- Last log-spaced-edge exponent of the witness distribution. -/
noncomputable def witB : ℝ := Real.logb 10 (rTest (selectLast (gridPeakRadius 2) 2))

lemma witA_lt_witB : witA < witB :=
  Real.logb_lt_logb (by norm_num) (rTest_pos _)
    (rTest_strict_mono sigma_two_nondegenerate)

/-- The ensemble cross section of the witness distribution under the trivial
solver (`Qext = 1` everywhere) at refractive-index row `(1, 1, 0)`. -/
noncomputable def witS : ℝ :=
  ∑ i ∈ Finset.range (binRadii witA witB 100).length,
    Real.pi * (binRadii witA witB 100).getD i 0 ^ 2 * 1 *
      ((binRadii witA witB 100).map (lnDensity (gridPeakRadius 2) 2)).getD i 0 *
      (binWidths witA witB 100).getD i 0

lemma witS_pos : 0 < witS := by
  unfold witS
  have hlenr : (binRadii witA witB 100).length = 100 := by
    simp [binRadii]
  apply Finset.sum_pos
  · intro i hi
    rw [hlenr] at hi
    have hi' : i < 100 := Finset.mem_range.mp hi
    have hir : i < (binRadii witA witB 100).length := by omega
    have hiw : i < (binWidths witA witB 100).length := by simp [binWidths]; omega
    have him : i < ((binRadii witA witB 100).map
        (lnDensity (gridPeakRadius 2) 2)).length := by simp [binRadii]; omega
    have hrpos : 0 < (binRadii witA witB 100).getD i 0 := by
      rw [List.getD_eq_getElem _ 0 hir]
      exact binRadii_mem_pos _ (List.getElem_mem hir)
    have hdpos : 0 < ((binRadii witA witB 100).map
        (lnDensity (gridPeakRadius 2) 2)).getD i 0 := by
      rw [List.getD_eq_getElem _ 0 him, List.getElem_map]
      exact lnDensity_pos one_lt_two (binRadii_mem_pos _ (List.getElem_mem hir))
    have hwpos : 0 < (binWidths witA witB 100).getD i 0 := by
      rw [List.getD_eq_getElem _ 0 hiw]
      exact binWidths_mem_pos witA_lt_witB (by norm_num) _ (List.getElem_mem hiw)
    have hpi := Real.pi_pos
    positivity
  · rw [hlenr]
    exact Finset.nonempty_range_iff.mpr (by norm_num)

/-- `c_ext[item]` for the witness configuration. -/
noncomputable def witCext : ℝ := witS / 3 + witS / 3 + witS / 3

lemma witCext_ne : witCext ≠ 0 := by
  have := witS_pos
  unfold witCext
  positivity

lemma dust_cross_section_wit :
    dust_cross_section trivialEnv.mie 1 1 0
      (logNormalBins (gridPeakRadius 2) 2 100).1
      (logNormalBins (gridPeakRadius 2) 2 100).2.1
      (logNormalBins (gridPeakRadius 2) 2 100).2.2 = some witS := by
  have h := dust_cross_section_sum trivialEnv.mie 1 1 0
    (binRadii witA witB 100)
    ((binRadii witA witB 100).map (lnDensity (gridPeakRadius 2) 2))
    (binWidths witA witB 100) (fun _ => 1)
    (by simp [binRadii]) (by simp [binRadii, binWidths])
    (fun i _ => rfl)
  exact h

lemma cExt_trivial (f : String) :
    cExtCrystalline trivialEnv (logNormalBins (gridPeakRadius 2) 2 100).1
      (logNormalBins (gridPeakRadius 2) 2 100).2.1
      (logNormalBins (gridPeakRadius 2) 2 100).2.2 f = some witCext := by
  unfold cExtCrystalline
  rw [show trivialEnv.meanWavelength f = 1 from rfl]
  dsimp only
  rw [show nearestRow (trivialEnv.crystallineAxis 1) 1 = some (1, 1, 0) from rfl]
  rw [show nearestRow (trivialEnv.crystallineAxis 2) 1 = some (1, 1, 0) from rfl]
  rw [show nearestRow (trivialEnv.crystallineAxis 3) 1 = some (1, 1, 0) from rfl]
  simp only [Option.bind_eq_bind, Option.some_bind]
  rw [dust_cross_section_wit]
  simp only [Option.some_bind]
  rfl

/-- Witness for C4 at the trivial collaborators, filters `("a", "b")`,
reference `("v", 1)` and `radius_g = gridPeakRadius 2`. -/
theorem calc_reddening_scales_reference_witness :
    calc_reddening trivialEnv ("a", "b") ("v", 1) "MgSiO3" "crystalline"
        (gridPeakRadius 2) =
      some (2.5 * log10e * witCext * (1 / witCext / 2.5 / log10e),
        2.5 * log10e * witCext * (1 / witCext / 2.5 / log10e)) ∧
    calc_reddening trivialEnv ("a", "b") ("v", 1) "MgSiO3" "crystalline"
        (gridPeakRadius 2) =
      some (1 * witCext / witCext, 1 * witCext / witCext) :=
  calc_reddening_scales_reference trivialEnv "a" "b" "v" 1 (gridPeakRadius 2)
    witCext witCext witCext (gridPeakRadius_pos 2) (cExt_trivial "v")
    (cExt_trivial "a") (cExt_trivial "b") witCext_ne

/-! ### `interpolate_dust` -/

/-- A loop that applies `f` to each element, stopping at the first failure:
the Option-monad `mapM`, written out for easy reasoning.  It models a Python
loop in which any iteration may raise. -/
def mapO {α β : Type} (f : α → Option β) : List α → Option (List β)
  | [] => some []
  | a :: l =>
    match f a with
    | none => none
    | some b => (mapO f l).map (fun bs => b :: bs)

lemma mapO_eq_none_of_mem {α β : Type} {f : α → Option β} {l : List α} {a : α}
    (ha : a ∈ l) (hf : f a = none) : mapO f l = none := by
  induction l with
  | nil => cases ha
  | cons x xs ih =>
    rcases List.mem_cons.mp ha with rfl | hmem
    · simp [mapO, hf]
    · unfold mapO
      cases hx : f x with
      | none => rfl
      | some b => rw [ih hmem]; rfl

lemma mapO_eq_some_of_forall {α β : Type} (f : α → Option β) (l : List α)
    (h : ∀ a ∈ l, ∃ b, f a = some b) : ∃ bs, mapO f l = some bs := by
  induction l with
  | nil => exact ⟨[], rfl⟩
  | cons x xs ih =>
    obtain ⟨b, hb⟩ := h x (List.mem_cons_self x xs)
    obtain ⟨bs, hbs⟩ := ih (fun a ha => h a (List.mem_cons_of_mem x ha))
    exact ⟨b :: bs, by simp [mapO, hb, hbs]⟩

lemma mapO_mem_of_mem {α β : Type} {f : α → Option β} {l : List α} {bs : List β}
    (h : mapO f l = some bs) : ∀ b ∈ bs, ∃ a ∈ l, f a = some b := by
  induction l generalizing bs with
  | nil =>
    simp only [mapO, Option.some.injEq] at h
    subst h
    intro b hb
    cases hb
  | cons x xs ih =>
    unfold mapO at h
    cases hx : f x with
    | none => rw [hx] at h; cases h
    | some b0 =>
      rw [hx] at h
      cases hrest : mapO f xs with
      | none => rw [hrest] at h; cases h
      | some bs0 =>
        rw [hrest] at h
        simp only [Option.map_some', Option.some.injEq] at h
        subst h
        intro b hb
        rcases List.mem_cons.mp hb with rfl | hmem
        · exact ⟨x, List.mem_cons_self x xs, hx⟩
        · obtain ⟨a, ha, hfa⟩ := ih hrest b hmem
          exact ⟨a, List.mem_cons_of_mem x ha, hfa⟩

lemma mapO_mem_of_input {α β : Type} {f : α → Option β} {l : List α}
    {bs : List β} (h : mapO f l = some bs) :
    ∀ a ∈ l, ∃ b ∈ bs, f a = some b := by
  induction l generalizing bs with
  | nil => intro a ha; cases ha
  | cons x xs ih =>
    unfold mapO at h
    cases hx : f x with
    | none => rw [hx] at h; cases h
    | some b0 =>
      rw [hx] at h
      cases hrest : mapO f xs with
      | none => rw [hrest] at h; cases h
      | some bs0 =>
        rw [hrest] at h
        simp only [Option.map_some', Option.some.injEq] at h
        subst h
        intro a ha
        rcases List.mem_cons.mp ha with rfl | hmem
        · exact ⟨b0, List.mem_cons_self _ _, hx⟩
        · obtain ⟨b, hb, hfb⟩ := ih hrest a hmem
          exact ⟨b, List.mem_cons_of_mem _ hb, hfb⟩

lemma mapO_map_shape {α β γ : Type} {h : α → Option β} {g : β → γ} {l : List α}
    {ys : List γ} (hm : mapO (fun a => (h a).map g) l = some ys) :
    ∃ bs : List β, ys = bs.map g := by
  induction l generalizing ys with
  | nil =>
    simp only [mapO, Option.some.injEq] at hm
    exact ⟨[], by simp [← hm]⟩
  | cons x xs ih =>
    unfold mapO at hm
    cases hx : h x with
    | none => rw [hx] at hm; cases hm
    | some b =>
      rw [hx] at hm
      simp only [Option.map_some'] at hm
      cases hrest : mapO (fun a => (h a).map g) xs with
      | none => rw [hrest] at hm; cases hm
      | some ys0 =>
        rw [hrest] at hm
        simp only [Option.map_some', Option.some.injEq] at hm
        obtain ⟨bs, hbs⟩ := ih hrest
        exact ⟨b :: bs, by rw [← hm, hbs]; rfl⟩

/-- Linear interpolation on a tabulated curve given as `(x, y)` pairs with
increasing `x`: the value on the first segment whose right end is at or past
the query.  The in-range value of the scipy `interp1d(kind='linear')`
collaborator. -/
noncomputable def linVal : List (ℝ × ℝ) → ℝ → ℝ
  | [], _ => 0
  | [p], _ => p.2
  | p :: q :: rest, x =>
    if x ≤ q.1 then p.2 + (q.2 - p.2) * (x - p.1) / (q.1 - p.1)
    else linVal (q :: rest) x

/-- Model of the external scipy collaborator
`interp1d(xs, ys, kind='linear', bounds_error=True)` evaluated at `x`:
a ValueError (`none`) for a query outside `[xs[0], xs[-1]]` (the
`bounds_error=True` contract, never clamped or extrapolated), the linear
interpolant inside. -/
noncomputable def interp1d (xs ys : List ℝ) (x : ℝ) : Option ℝ :=
  xs.head?.bind (fun x0 => xs.getLast?.bind (fun xn =>
    if x < x0 ∨ xn < x then none else some (linVal (xs.zip ys) x)))

/-- Model of the external scipy collaborator
`interp2d(xs, ys, z, kind='linear', bounds_error=True)` evaluated at
`(x, y)`: a ValueError (`none`) outside the rectangle of the two axes, a
bilinear value inside. -/
noncomputable def interp2d (xs ys : List ℝ) (z : List (List ℝ)) (x y : ℝ) :
    Option ℝ :=
  xs.head?.bind (fun x0 => xs.getLast?.bind (fun xn =>
    ys.head?.bind (fun y0 => ys.getLast?.bind (fun yn =>
      if x < x0 ∨ xn < x ∨ y < y0 ∨ yn < y then none
      else some (linVal (ys.zip (z.map (fun row => linVal (xs.zip row) x))) y)))))

/-- `np.trapz(ys, xs)`: the trapezoidal rule over consecutive samples. -/
noncomputable def trapz : List ℝ → List ℝ → ℝ
  | y1 :: y2 :: ys, x1 :: x2 :: xs =>
    (x2 - x1) * (y1 + y2) / 2 + trapz (y2 :: ys) (x2 :: xs)
  | _, _ => 0

/-- The cached `dust/mgsio3/crystalline` grid read by `interpolate_dust`:
the three axes and the cross-section column `cross_section[:, i, j]` for each
pair of size-parameter indices. -/
structure DustGrid where
  wavelength : List ℝ
  radius : List ℝ
  sigma : List ℝ
  crossColumn : ℕ → ℕ → List ℝ

/-- One entry of the `cross_sections` dictionary returned by
`interpolate_dust`: a single 2-D interpolant for a filter, or one 2-D
interpolant per wavelength channel for a spectrum
(`Union[interp2d, List[interp2d]]`). -/
inductive TableEntry where
  | single : (ℝ → ℝ → Option ℝ) → TableEntry
  | perChannel : List (ℝ → ℝ → Option ℝ) → TableEntry

/-- The `cross_phot` array of `interpolate_dust` for one filter: for every
`(radius_i, sigma_j)` grid node, interpolate the cross-section curve onto the
filter's wavelengths (failing out of bounds), then the throughput-weighted
trapezoidal mean `integral1/integral2`. -/
noncomputable def filterCrossPhot (g : DustGrid) (ft : List (ℝ × ℝ)) :
    Option (List (List ℝ)) :=
  mapO (fun i =>
    mapO (fun j => do
      let cross_tmp ← mapO (fun wv => interp1d g.wavelength (g.crossColumn i j) wv)
        (ft.map Prod.fst)
      pure (trapz (List.zipWith (fun t c => t * c) (ft.map Prod.snd) cross_tmp)
          (ft.map Prod.fst) /
        trapz (ft.map Prod.snd) (ft.map Prod.fst)))
      (List.range g.sigma.length))
    (List.range g.radius.length)

/-- One filter's `cross_sections[phot_item] = interp2d(sigma, radius,
cross_phot, kind='linear', bounds_error=True)`. -/
noncomputable def filterTable (g : DustGrid) (ft : List (ℝ × ℝ)) :
    Option (ℝ → ℝ → Option ℝ) :=
  (filterCrossPhot g ft).map (fun z => interp2d g.sigma g.radius z)

/-- One spectrum's `cross_sections[spec_item]`: per spectral channel, the
cross-section curve interpolated at that channel's wavelength over all grid
nodes (failing out of bounds), wrapped in a 2-D interpolant over
`(sigma, radius)`. -/
noncomputable def specTables (g : DustGrid) (wavels : List ℝ) :
    Option (List (ℝ → ℝ → Option ℝ)) :=
  mapO (fun wv =>
    (mapO (fun i =>
      mapO (fun j => interp1d g.wavelength (g.crossColumn i j) wv)
        (List.range g.sigma.length))
      (List.range g.radius.length)).map
      (fun z => interp2d g.sigma g.radius z))
    wavels

/-- `interpolate_dust(inc_phot, inc_spec, spec_data)` from
`species/util/dust_util.py`.  The function first executes
`inc_phot.append('Generic/Bessell.V')`, mutating the caller's list, then
builds one table per (now appended) filter and one table list per spectrum.
The embedding threads the mutable arguments explicitly: it returns the
post-call `inc_phot`, the (unchanged) `inc_spec` and `spec_data`, and the
`(cross_sections, radius, sigma)` result (`none` for an uncaught scipy
ValueError). -/
noncomputable def interpolate_dust (g : DustGrid)
    (filterTrans : String → List (ℝ × ℝ)) (inc_phot inc_spec : List String)
    (spec_data : String → List ℝ) :
    List String × List String × (String → List ℝ) ×
      Option (List (String × TableEntry) × List ℝ × List ℝ) :=
  let phot := inc_phot ++ ["Generic/Bessell.V"]
  let result := do
    let photTables ← mapO (fun item =>
      (filterTable g (filterTrans item)).map
        (fun t => (item, TableEntry.single t))) phot
    let specTabs ← mapO (fun item =>
      (specTables g (spec_data item)).map
        (fun ts => (item, TableEntry.perChannel ts))) inc_spec
    pure (photTables ++ specTabs, g.radius, g.sigma)
  (phot, inc_spec, spec_data, result)

/-- Claim C10: every call of `interpolate_dust` mutates its `inc_phot` list
argument in place by appending `'Generic/Bessell.V'` before building any
table (the loop runs over the already-appended list), so after the call the
caller's list has gained exactly that one element; whenever a dictionary is
returned it contains an entry for `'Generic/Bessell.V'` even when that
filter was not requested; and the other inputs `inc_spec` and `spec_data`
are left unchanged. -/
theorem interpolate_dust_mutates_inc_phot (g : DustGrid)
    (filterTrans : String → List (ℝ × ℝ)) (inc_phot inc_spec : List String)
    (spec_data : String → List ℝ) :
    (interpolate_dust g filterTrans inc_phot inc_spec spec_data).1 =
      inc_phot ++ ["Generic/Bessell.V"] ∧
    (interpolate_dust g filterTrans inc_phot inc_spec spec_data).2.1 = inc_spec ∧
    (interpolate_dust g filterTrans inc_phot inc_spec spec_data).2.2.1 = spec_data ∧
    ∀ res, (interpolate_dust g filterTrans inc_phot inc_spec spec_data).2.2.2 =
        some res → ∃ t, ("Generic/Bessell.V", t) ∈ res.1 := by
  refine ⟨rfl, rfl, rfl, ?_⟩
  intro res hres
  unfold interpolate_dust at hres
  dsimp only at hres
  cases hphot : mapO (fun item => (filterTable g (filterTrans item)).map
      (fun t => (item, TableEntry.single t))) (inc_phot ++ ["Generic/Bessell.V"]) with
  | none =>
    rw [hphot] at hres
    cases hres
  | some ys =>
    rw [hphot] at hres
    cases hspec : mapO (fun item => (specTables g (spec_data item)).map
        (fun ts => (item, TableEntry.perChannel ts))) inc_spec with
    | none =>
      rw [hspec] at hres
      cases hres
    | some zs =>
      rw [hspec] at hres
      simp only [Option.bind_eq_bind, Option.some_bind, Option.pure_def,
        Option.some.injEq] at hres
      obtain ⟨p, hp, hfp⟩ := mapO_mem_of_input hphot "Generic/Bessell.V"
        (List.mem_append_right _ (List.mem_singleton.mpr rfl))
      obtain ⟨t, -, hpt⟩ := Option.map_eq_some'.mp hfp
      refine ⟨TableEntry.single t, ?_⟩
      rw [← hres]
      dsimp only
      apply List.mem_append_left
      rw [← hpt] at hp
      exact hp

lemma interp1d_oob {wl : List ℝ} {w0 wn : ℝ} (hw0 : wl.head? = some w0)
    (hwn : wl.getLast? = some wn) {wv : ℝ} (hoob : wv < w0 ∨ wn < wv)
    (col : List ℝ) : interp1d wl col wv = none := by
  unfold interp1d
  rw [hw0, hwn]
  simp only [Option.some_bind]
  rw [if_pos hoob]

lemma interp1d_inb {wl : List ℝ} {w0 wn : ℝ} (hw0 : wl.head? = some w0)
    (hwn : wl.getLast? = some wn) {wv : ℝ} (h1 : w0 ≤ wv) (h2 : wv ≤ wn)
    (col : List ℝ) : ∃ v, interp1d wl col wv = some v := by
  unfold interp1d
  rw [hw0, hwn]
  simp only [Option.some_bind]
  rw [if_neg (by push_neg; exact ⟨h1, h2⟩)]
  exact ⟨_, rfl⟩

lemma filterCrossPhot_oob {g : DustGrid} {w0 wn : ℝ}
    (hw0 : g.wavelength.head? = some w0) (hwn : g.wavelength.getLast? = some wn)
    (hr : 0 < g.radius.length) (hs : 0 < g.sigma.length)
    {ft : List (ℝ × ℝ)} {wv : ℝ} (hwv : wv ∈ ft.map Prod.fst)
    (hoob : wv < w0 ∨ wn < wv) : filterCrossPhot g ft = none := by
  unfold filterCrossPhot
  apply mapO_eq_none_of_mem (List.mem_range.mpr hr)
  apply mapO_eq_none_of_mem (List.mem_range.mpr hs)
  have hct : mapO (fun wv => interp1d g.wavelength (g.crossColumn 0 0) wv)
      (ft.map Prod.fst) = none :=
    mapO_eq_none_of_mem hwv (interp1d_oob hw0 hwn hoob _)
  simp [hct]

lemma filterCrossPhot_inb {g : DustGrid} {w0 wn : ℝ}
    (hw0 : g.wavelength.head? = some w0) (hwn : g.wavelength.getLast? = some wn)
    (ft : List (ℝ × ℝ)) (hin : ∀ wv ∈ ft.map Prod.fst, w0 ≤ wv ∧ wv ≤ wn) :
    ∃ z, filterCrossPhot g ft = some z := by
  unfold filterCrossPhot
  apply mapO_eq_some_of_forall
  intro i _
  apply mapO_eq_some_of_forall
  intro j _
  obtain ⟨ct, hct⟩ := mapO_eq_some_of_forall
    (fun wv => interp1d g.wavelength (g.crossColumn i j) wv)
    (ft.map Prod.fst)
    (fun wv hwv => interp1d_inb hw0 hwn (hin wv hwv).1 (hin wv hwv).2 _)
  refine ⟨trapz (List.zipWith (fun t c => t * c) (ft.map Prod.snd) ct)
      (ft.map Prod.fst) / trapz (ft.map Prod.snd) (ft.map Prod.fst), ?_⟩
  simp [hct]

lemma specTables_oob {g : DustGrid} {w0 wn : ℝ}
    (hw0 : g.wavelength.head? = some w0) (hwn : g.wavelength.getLast? = some wn)
    (hr : 0 < g.radius.length) (hs : 0 < g.sigma.length)
    {wavels : List ℝ} {wv : ℝ} (hwv : wv ∈ wavels)
    (hoob : wv < w0 ∨ wn < wv) : specTables g wavels = none := by
  unfold specTables
  apply mapO_eq_none_of_mem hwv
  have hinner : mapO (fun i =>
      mapO (fun j => interp1d g.wavelength (g.crossColumn i j) wv)
        (List.range g.sigma.length)) (List.range g.radius.length) = none := by
    apply mapO_eq_none_of_mem (List.mem_range.mpr hr)
    exact mapO_eq_none_of_mem (List.mem_range.mpr hs) (interp1d_oob hw0 hwn hoob _)
  rw [hinner]
  rfl

lemma specTables_inb {g : DustGrid} {w0 wn : ℝ}
    (hw0 : g.wavelength.head? = some w0) (hwn : g.wavelength.getLast? = some wn)
    (wavels : List ℝ) (hin : ∀ wv ∈ wavels, w0 ≤ wv ∧ wv ≤ wn) :
    ∃ ts, specTables g wavels = some ts := by
  unfold specTables
  apply mapO_eq_some_of_forall
  intro wv hwv
  have hinner : ∃ z, mapO (fun i =>
      mapO (fun j => interp1d g.wavelength (g.crossColumn i j) wv)
        (List.range g.sigma.length)) (List.range g.radius.length) = some z := by
    apply mapO_eq_some_of_forall
    intro i _
    apply mapO_eq_some_of_forall
    intro j _
    exact interp1d_inb hw0 hwn (hin wv hwv).1 (hin wv hwv).2 _
  obtain ⟨z, hz⟩ := hinner
  exact ⟨_, by rw [hz]; rfl⟩

/-- Claim C7: with `bounds_error=True` throughout, (1) a filter whose
transmission support contains a wavelength outside the grid's tabulated
wavelength range makes `interpolate_dust` fail with scipy's out-of-bounds
ValueError instead of clamping or extrapolating, (2) likewise for a spectrum
channel wavelength, (3) when every used wavelength lies within the tabulated
range the call succeeds and every returned table is an `interp2d` over the
tabulated `(sigma, radius)` axes, and (4) such a table fails (`none`) at any
`(sigma, radius)` lookup outside the tabulated axes and succeeds at any point
inside them. -/
theorem interpolate_dust_out_of_bounds (g : DustGrid)
    (filterTrans : String → List (ℝ × ℝ)) (inc_phot inc_spec : List String)
    (spec_data : String → List ℝ) (w0 wn : ℝ)
    (hw0 : g.wavelength.head? = some w0) (hwn : g.wavelength.getLast? = some wn)
    (hr : 0 < g.radius.length) (hs : 0 < g.sigma.length) :
    (∀ item ∈ inc_phot ++ ["Generic/Bessell.V"],
      ∀ wv ∈ (filterTrans item).map Prod.fst, (wv < w0 ∨ wn < wv) →
      (interpolate_dust g filterTrans inc_phot inc_spec spec_data).2.2.2 = none) ∧
    (∀ item ∈ inc_spec, ∀ wv ∈ spec_data item, (wv < w0 ∨ wn < wv) →
      (interpolate_dust g filterTrans inc_phot inc_spec spec_data).2.2.2 = none) ∧
    ((∀ item ∈ inc_phot ++ ["Generic/Bessell.V"],
        ∀ wv ∈ (filterTrans item).map Prod.fst, w0 ≤ wv ∧ wv ≤ wn) →
      (∀ item ∈ inc_spec, ∀ wv ∈ spec_data item, w0 ≤ wv ∧ wv ≤ wn) →
      ∃ res, (interpolate_dust g filterTrans inc_phot inc_spec spec_data).2.2.2 =
          some res ∧
        ∀ p ∈ res.1,
          (∃ z, p.2 = TableEntry.single (interp2d g.sigma g.radius z)) ∨
          (∃ zs : List (List (List ℝ)), p.2 = TableEntry.perChannel
            (zs.map (fun z => interp2d g.sigma g.radius z)))) ∧
    (∀ (xs ys : List ℝ) (z : List (List ℝ)) (x y x0 xn y0 yn : ℝ),
      xs.head? = some x0 → xs.getLast? = some xn → ys.head? = some y0 →
      ys.getLast? = some yn →
      ((x < x0 ∨ xn < x ∨ y < y0 ∨ yn < y) → interp2d xs ys z x y = none) ∧
      (x0 ≤ x → x ≤ xn → y0 ≤ y → y ≤ yn → ∃ v, interp2d xs ys z x y = some v)) := by
  refine ⟨?_, ?_, ?_, ?_⟩
  · intro item hitem wv hwv hoob
    have hfcp := filterCrossPhot_oob hw0 hwn hr hs hwv hoob
    have hft : filterTable g (filterTrans item) = none := by
      unfold filterTable
      rw [hfcp]
      rfl
    have hphot : mapO (fun item => (filterTable g (filterTrans item)).map
        (fun t => (item, TableEntry.single t)))
        (inc_phot ++ ["Generic/Bessell.V"]) = none :=
      mapO_eq_none_of_mem hitem (by rw [hft]; rfl)
    unfold interpolate_dust
    dsimp only
    rw [hphot]
    rfl
  · intro item hitem wv hwv hoob
    have hst := specTables_oob hw0 hwn hr hs hwv hoob
    have hspec : mapO (fun item => (specTables g (spec_data item)).map
        (fun ts => (item, TableEntry.perChannel ts))) inc_spec = none :=
      mapO_eq_none_of_mem hitem (by rw [hst]; rfl)
    unfold interpolate_dust
    dsimp only
    cases hphot : mapO (fun item => (filterTable g (filterTrans item)).map
        (fun t => (item, TableEntry.single t)))
        (inc_phot ++ ["Generic/Bessell.V"]) with
    | none => rfl
    | some ys =>
      simp only [Option.bind_eq_bind, Option.some_bind]
      rw [hspec]
      rfl
  · intro hfin hsin
    obtain ⟨ys, hys⟩ := mapO_eq_some_of_forall
      (fun item => (filterTable g (filterTrans item)).map
        (fun t => (item, TableEntry.single t)))
      (inc_phot ++ ["Generic/Bessell.V"])
      (fun item hitem => by
        obtain ⟨z, hz⟩ := filterCrossPhot_inb hw0 hwn (filterTrans item)
          (hfin item hitem)
        exact ⟨(item, TableEntry.single (interp2d g.sigma g.radius z)), by
          dsimp only
          unfold filterTable
          rw [hz]
          rfl⟩)
    obtain ⟨zs, hzs⟩ := mapO_eq_some_of_forall
      (fun item => (specTables g (spec_data item)).map
        (fun ts => (item, TableEntry.perChannel ts)))
      inc_spec
      (fun item hitem => by
        obtain ⟨ts, hts⟩ := specTables_inb hw0 hwn (spec_data item)
          (hsin item hitem)
        exact ⟨(item, TableEntry.perChannel ts), by
          dsimp only
          rw [hts]
          rfl⟩)
    refine ⟨(ys ++ zs, g.radius, g.sigma), ?_, ?_⟩
    · unfold interpolate_dust
      dsimp only
      rw [hys]
      simp only [Option.bind_eq_bind, Option.some_bind]
      rw [hzs]
      rfl
    · intro p hp
      rcases List.mem_append.mp hp with hpy | hpz
      · obtain ⟨item, hitem, hfi⟩ := mapO_mem_of_mem hys p hpy
        obtain ⟨t, ht, hpt⟩ := Option.map_eq_some'.mp hfi
        unfold filterTable at ht
        obtain ⟨z, hz, htz⟩ := Option.map_eq_some'.mp ht
        left
        refine ⟨z, ?_⟩
        rw [← hpt]
        dsimp only
        rw [← htz]
      · obtain ⟨item, hitem, hfi⟩ := mapO_mem_of_mem hzs p hpz
        obtain ⟨ts, hts, hpts⟩ := Option.map_eq_some'.mp hfi
        unfold specTables at hts
        obtain ⟨bs, hbs⟩ := mapO_map_shape hts
        right
        refine ⟨bs, ?_⟩
        rw [← hpts]
        dsimp only
        rw [hbs]
  · intro xs ys z x y x0 xn y0 yn hx0 hxn hy0 hyn
    constructor
    · intro hoob
      unfold interp2d
      rw [hx0, hxn, hy0, hyn]
      simp only [Option.some_bind]
      rw [if_pos hoob]
    · intro h1 h2 h3 h4
      unfold interp2d
      rw [hx0, hxn, hy0, hyn]
      simp only [Option.some_bind]
      rw [if_neg (by push_neg; exact ⟨h1, h2, h3, h4⟩)]
      exact ⟨_, rfl⟩

/-- A concrete grid for the C7 witness: wavelength axis `[0, 3]`, size
parameter axes `[1, 2]`, constant cross sections. -/
noncomputable def witGrid : DustGrid where
  wavelength := [0, 3]
  radius := [1, 2]
  sigma := [1, 2]
  crossColumn := fun _ _ => [1, 1]

/-- Witness for C7 (its success conjunct) at the concrete grid `witGrid`, a
constant in-range filter collaborator, and no requested filters or spectra. -/
theorem interpolate_dust_out_of_bounds_witness :
    ∃ res, (interpolate_dust witGrid (fun _ => [((1 : ℝ), (1 : ℝ)), (2, 1)]) [] []
        (fun _ => [])).2.2.2 = some res ∧
      ∀ p ∈ res.1,
        (∃ z, p.2 = TableEntry.single (interp2d witGrid.sigma witGrid.radius z)) ∨
        (∃ zs : List (List (List ℝ)), p.2 = TableEntry.perChannel
          (zs.map (fun z => interp2d witGrid.sigma witGrid.radius z))) :=
  (interpolate_dust_out_of_bounds witGrid (fun _ => [((1 : ℝ), (1 : ℝ)), (2, 1)])
    [] [] (fun _ => []) 0 3 rfl rfl (by simp [witGrid]) (by simp [witGrid])).2.2.1
    (by
      intro item _ wv hwv
      simp only [List.map_cons, List.map_nil, List.mem_cons,
        List.not_mem_nil, or_false] at hwv
      rcases hwv with rfl | rfl <;> norm_num)
    (by intro item h; cases h)
